import Mathlib

/-!
Verification of the signature/hover resolution engine of the language server.

The TypeScript sources (`providers/signatureHelp.ts`, `ccs/signatureHelp/routineSupport.ts`,
`ccs/hover/classSupport.ts`, `ccs/hover/routineSupport.ts`) are embedded shallowly:
JavaScript strings become `List Char`, JavaScript numbers used as indices become `Int`
(so that the `-1` sentinel of `indexOf`/`lastIndexOf` and negative `slice` arguments
keep their exact semantics), and the engine's module-level mutable variables become an
explicit state record threaded through a step function.
-/

namespace SigEngine

/-- Whitespace test matching the JavaScript regex class `\s` on the characters that can
occur here (space, tab, LF, VT, FF, CR, and NBSP ` `). -/
def isWs (c : Char) : Bool :=
  c = ' ' || c = '\t' || c = '\n' || c = '\r' || c = '\x0b' || c = '\x0c' || c = ' '

/-- The JavaScript `str.replace(/\s+/g, "")`: replacing every run of whitespace by the
empty string removes exactly the whitespace characters. -/
def removeWs (l : List Char) : List Char := l.filter (fun c => !isWs c)

/-- The normalization `arglist.replace(/ /g, " ")` maps NBSP to a plain space. -/
def normNbsp (c : Char) : Char := if c = ' ' then ' ' else c

/-- Leading-whitespace removal (JavaScript `trimStart`). -/
def trimStart (l : List Char) : List Char := l.dropWhile isWs

/-- Trailing-whitespace removal (JavaScript `trimEnd`). -/
def trimEnd (l : List Char) : List Char := (l.reverse.dropWhile isWs).reverse

/-- JavaScript `trim`: drop whitespace at both ends. -/
def trim (l : List Char) : List Char := trimEnd (trimStart l)

/-- Resolution of a JavaScript `slice` argument: negative indices count from the end
(clamped at 0), nonnegative ones are clamped at the length. -/
def resolveSliceIdx (len : Nat) (i : Int) : Nat :=
  if i < 0 then ((len : Int) + i).toNat else min i.toNat len

/-- JavaScript `str.slice(s, e)`. -/
def jsSlice (l : List Char) (s e : Int) : List Char :=
  (l.take (resolveSliceIdx l.length e)).drop (resolveSliceIdx l.length s)

/-- JavaScript `str.slice(s)` (to the end of the string). -/
def jsSliceFrom (l : List Char) (s : Int) : List Char :=
  l.drop (resolveSliceIdx l.length s)

/-- JavaScript `str.indexOf(c, start)` with a nonnegative start position: the least
index `≥ start` holding `c`, or `-1`. -/
def jsIndexOfFrom (l : List Char) (c : Char) (start : Nat) : Int :=
  match (l.drop start).findIdx? (fun x => x = c) with
  | some k => ((start + k : Nat) : Int)
  | none => -1

/-- JavaScript `str.indexOf(c)`. -/
def jsIndexOf (l : List Char) (c : Char) : Int := jsIndexOfFrom l c 0

/-- JavaScript `str.lastIndexOf(c)`. -/
def jsLastIndexOf (l : List Char) (c : Char) : Int :=
  match l.reverse.findIdx? (fun x => x = c) with
  | some k => ((l.length - 1 - k : Nat) : Int)
  | none => -1

/-- Whether the character sequence `pat` occurs contiguously inside `l`. -/
def containsSeq (pat : List Char) : List Char → Bool
  | [] => pat.isEmpty
  | c :: rest => pat.isPrefixOf (c :: rest) || containsSeq pat rest

/-- JavaScript `str.replace(new RegExp(pat, "g"), rep)` for a literal nonempty pattern:
replace every (leftmost, non-overlapping) occurrence of `pat` by `rep`. -/
def replaceSeq (pat rep : List Char) : List Char → List Char
  | [] => []
  | c :: rest =>
    if h : pat ≠ [] ∧ pat.isPrefixOf (c :: rest) then
      rep ++ replaceSeq pat rep ((c :: rest).drop pat.length)
    else
      c :: replaceSeq pat rep rest
termination_by l => l.length
decreasing_by
  · simp only [List.length_drop]
    have : 0 < pat.length := List.length_pos.mpr h.1
    simp only [List.length_cons]
    omega
  · simp [Nat.lt_succ_self]

/-- Placeholder for the Markdown emphasis characters before an argument
(`emphasizePrefix` in the source). -/
def emphasizeStart : List Char := "%%%%%".toList

/-- Placeholder for the Markdown emphasis characters after an argument
(`emphasizeSuffix` in the source). -/
def emphasizeEnd : List Char := "@@@@@".toList

/-- The `while` loop of `emphasizeArgument` (signatureHelp.ts lines 66-80), searching for
the space before the requested argument.  The loop body looks up
`normalized.indexOf(" ", lastspace)` — not `lastspace + 1` — so once `lastspace` is a
space position the loop stops advancing; for `arg = 1` on input whose normalized form
starts with a space and contains a later space the JavaScript loop never terminates.
That case is modelled by fuel exhaustion (`none`); the caller supplies enough fuel for
every terminating run.  On a normal exit the loop's `result` variable still holds the
original `arglist`. -/
def emphasizeLoop (arglist normalized : List Char) (arg : Nat) (e : Int) :
    Nat → Nat → Nat → Option (List Char)
  | _, _, 0 => none
  | lastspace, spacesfound, fuel + 1 =>
    if jsIndexOfFrom normalized ' ' (lastspace + 1) = -1 then some arglist
    else
      let thisspace := jsIndexOfFrom normalized ' ' lastspace
      if arg = spacesfound + 2 then
        let start := thisspace + 1
        let e2 := if e = -1 then jsIndexOfFrom normalized ' ' start.toNat - 1 else e
        some (jsSlice arglist 0 start ++ emphasizeStart ++ jsSlice arglist start e2 ++
          emphasizeEnd ++ jsSliceFrom arglist e2)
      else
        emphasizeLoop arglist normalized arg e thisspace.toNat (spacesfound + 1) fuel

/-- `emphasizeArgument` (signatureHelp.ts lines 35-83): edit the macro argument list to
markdown-emphasize the `arg`-th (one-indexed) argument.  `numargs` is
`normalized.split(" ").length`, i.e. the number of spaces plus one.  Every return path
applies `replace(/\s+/g, "")`; `none` models the non-terminating loop case. -/
def emphasizeArgument (arglist : List Char) (arg : Nat) : Option (List Char) :=
  let normalized := arglist.map normNbsp
  let numargs := normalized.count ' ' + 1
  if arg > numargs then some (removeWs normalized)
  else
    let e0 : Int := if arg = numargs then (normalized.length : Int) - 1 else -1
    let s0 : Int := if arg = numargs ∧ 1 < numargs then jsLastIndexOf normalized ' ' + 1 else -1
    let s1 : Int := if arg = 1 then 1 else s0
    let e1 : Int := if arg = 1 ∧ e0 = -1 then jsIndexOf normalized ' ' - 1 else e0
    if s1 ≠ -1 ∧ e1 ≠ -1 then
      some (removeWs (jsSlice arglist 0 s1 ++ emphasizeStart ++ jsSlice arglist s1 e1 ++
        emphasizeEnd ++ jsSliceFrom arglist e1))
    else
      (emphasizeLoop arglist normalized arg e1 0 0 (arg + 3)).map removeWs

/-- The label of an LSP `ParameterInformation`: `ParameterInformation.create([s, e])`
produces the offset-pair form; a plain string label is the other variant. -/
inductive ParamLabel where
  | span (s e : Int)
  | text (t : List Char)
deriving DecidableEq

/-- LSP `MarkupContent`; the `kind` is always Markdown in these sources, so only the
`value` is carried. -/
structure MarkupContent where
  value : List Char
deriving DecidableEq

/-- LSP `SignatureInformation` as used by the engine: a rendered label, parameter
spans into it, and optional documentation. -/
structure SignatureInformation where
  label : List Char
  parameters : List ParamLabel
  documentation : Option MarkupContent
deriving DecidableEq

/-- The `type` field of `SignatureHelpDocCache` (`"macro" | "method" | "routine"`). -/
inductive DocCacheType where
  | macroDoc
  | methodDoc
  | routineDoc
deriving DecidableEq

/-- `SignatureHelpDocCache`: cache of the documentation content sent for the last
triggered SignatureHelp. -/
structure SignatureHelpDocCache where
  type : DocCacheType
  doc : MarkupContent
deriving DecidableEq

/-- An LSP text position. -/
structure Position where
  line : Nat
  character : Nat
deriving DecidableEq

/-- `SignatureHelpMacroContext`: the macro context info required to do a macro
expansion when the selected parameter changes. -/
structure SignatureHelpMacroContext where
  docname : List Char
  macroname : List Char
  (superclasses includes includegenerators imports : List (List Char))
  mode : List Char
  arguments : List Char
deriving DecidableEq

/-- The module-level mutable variables of `signatureHelp.ts` (lines 11-21), gathered
into one state record.  `signatureHelpMacroCache` is declared without an initializer
in the source, so "never assigned yet" is modelled by `none`. -/
structure SignatureHelpState where
  macroCache : Option SignatureHelpMacroContext
  docCache : Option SignatureHelpDocCache
  startPosition : Option Position
deriving DecidableEq

/-- An LSP `SignatureHelp` value. -/
structure SignatureHelpResult where
  signatures : List SignatureInformation
  activeSignature : Nat
  activeParameter : Option Nat
deriving DecidableEq

/-- `markdownifyExpansion` (signatureHelp.ts lines 86-90): display the expansion as an
HTML code block with the emphasized argument rendered bold, italic and underlined. -/
def markdownifyExpansion (exp : List (List Char)) : List Char :=
  "<pre>\n".toList ++
    replaceSeq emphasizeEnd "</u></i></b>".toList
      (replaceSeq emphasizeStart "<b><i><u>".toList
        (List.intercalate ['\n'] (exp.map trimEnd))) ++
    "\n</pre>".toList

/-- The character-indexed scan of `formalSpecToParamsArr` (routineSupport.ts lines
827-861).  Both bracket counters are JavaScript numbers that may go negative, hence
`Int`; a comma closes a parameter exactly when not in a quote, the brace counter is
zero (JavaScript `!openBraceCount`), and the paren counter is exactly 1.  Returns the
accumulated spans and the final `currentParamStart`. -/
def formalSpecLoop : List Char → Nat → Nat → Int → Int → Bool → List ParamLabel →
    List ParamLabel × Nat
  | [], _, currentParamStart, _, _, _, acc => (acc, currentParamStart)
  | c :: rest, idx, currentParamStart, parenCount, braceCount, inQuote, acc =>
    if c = '{' then
      formalSpecLoop rest (idx + 1) currentParamStart parenCount
        (if inQuote then braceCount else braceCount + 1) inQuote acc
    else if c = '}' then
      formalSpecLoop rest (idx + 1) currentParamStart parenCount
        (if inQuote then braceCount else braceCount - 1) inQuote acc
    else if c = '(' then
      formalSpecLoop rest (idx + 1) currentParamStart
        (if inQuote then parenCount else parenCount + 1) braceCount inQuote acc
    else if c = ')' then
      formalSpecLoop rest (idx + 1) currentParamStart
        (if inQuote then parenCount else parenCount - 1) braceCount inQuote acc
    else if c = '"' then
      formalSpecLoop rest (idx + 1) currentParamStart parenCount braceCount (!inQuote) acc
    else if c = ',' then
      if !inQuote && braceCount = 0 && parenCount = 1 then
        formalSpecLoop rest (idx + 1) (idx + 1) parenCount braceCount inQuote
          (acc ++ [ParamLabel.span currentParamStart idx])
      else
        formalSpecLoop rest (idx + 1) currentParamStart parenCount braceCount inQuote acc
    else
      formalSpecLoop rest (idx + 1) currentParamStart parenCount braceCount inQuote acc

/-- `formalSpecToParamsArr` (routineSupport.ts lines 818-864): the `[start, end]`
span pairs for all parameters in a formal spec string.  The literal `"()"` (after
removing whitespace) yields no parameters; otherwise the scan starts at offset 1 and a
final span up to `formalSpec.length - 1` is always appended. -/
def formalSpecToParamsArr (formalSpec : List Char) : List ParamLabel :=
  if removeWs formalSpec = "()".toList then []
  else
    let scan := formalSpecLoop formalSpec 0 1 0 0 false []
    scan.1 ++ [ParamLabel.span (scan.2 : Int) ((formalSpec.length : Int) - 1)]

/-- The preprocessing `paramStr.replace(/\r?\n/g, ' ')` of `splitRoutineParams`:
a LF, optionally preceded by a CR, becomes one space; a lone CR is untouched. -/
def normalizeNewlines : List Char → List Char
  | [] => []
  | '\r' :: '\n' :: rest => ' ' :: normalizeNewlines rest
  | '\n' :: rest => ' ' :: normalizeNewlines rest
  | c :: rest => c :: normalizeNewlines rest

/-- The character loop of `splitRoutineParams` (routineSupport.ts lines 729-758).
`prev` is the previous raw character (`charAt(i - 1)`, which for `i = 0` is the empty
string and hence never a backslash).  Mid-list parameters are pushed as
`current.trim()` — possibly empty; the final parameter is pushed only if its trim is
nonempty. -/
def splitLoop : List Char → Option Char → Bool → Nat → List Char → List (List Char) →
    List (List Char)
  | [], _, _, _, current, acc =>
    acc ++ (if trim current ≠ [] then [trim current] else [])
  | c :: rest, prev, inQuote, parenDepth, current, acc =>
    if c = '"' ∧ prev ≠ some '\\' then
      splitLoop rest (some c) (!inQuote) parenDepth (current ++ [c]) acc
    else if ¬inQuote ∧ c = '(' then
      splitLoop rest (some c) inQuote (parenDepth + 1) (current ++ [c]) acc
    else if ¬inQuote ∧ c = ')' ∧ parenDepth > 0 then
      splitLoop rest (some c) inQuote (parenDepth - 1) (current ++ [c]) acc
    else if ¬inQuote ∧ c = ',' ∧ parenDepth = 0 then
      splitLoop rest (some c) inQuote parenDepth [] (acc ++ [trim current])
    else
      splitLoop rest (some c) inQuote parenDepth (current ++ [c]) acc

/-- `splitRoutineParams` (routineSupport.ts lines 720-760): split a routine parameter
list into individual parameters, dropping every empty parameter via the final
`.filter(param => param.length > 0)`. -/
def splitRoutineParams (paramStr : List Char) : List (List Char) :=
  let normalized := normalizeNewlines paramStr
  if trim normalized = [] then []
  else (splitLoop normalized none false 0 [] []).filter (fun p => !p.isEmpty)

/-- `stripRoutineComment` (routineSupport.ts lines 714-717): remove anything following
the first semicolon in a routine line. -/
def stripRoutineComment (line : List Char) : List Char :=
  line.takeWhile (fun c => c ≠ ';')

/-- A JavaScript `\w` word character: letter, digit, or underscore. -/
def isWordChar (c : Char) : Bool := c.isAlpha || c.isDigit || c = '_'

/-- A character of the class `[\w%]` used for identifier continuations. -/
def isIdentChar (c : Char) : Bool := isWordChar c || c = '%'

/-- A character of the class `[%A-Za-z]` that may start a label or routine name. -/
def isIdentStart (c : Char) : Bool := c.isAlpha || c = '%'

/-- End index of the maximal run of characters satisfying `p` that starts at `i`. -/
def runEnd (p : Char → Bool) (l : List Char) (i : Nat) : Nat :=
  i + ((l.drop i).takeWhile p).length

/-- Whether position `i` of `l` holds a `\w` word character (out of range counts as
no word character, giving the word boundaries at the ends of the string). -/
def wordCharAt (l : List Char) (i : Nat) : Bool :=
  match l.get? i with
  | some c => isWordChar c
  | none => false

/-- The `label`/`routine` pair produced by `extractRoutineCall`
(routineSupport.ts lines 762-765). -/
structure RoutineCallContext where
  label : List Char
  routine : List Char
deriving DecidableEq

/-- Match, at position `j` of `l`, the end-anchored regex tail
`([%A-Za-z][\w%]*)(?:\s*\^\s*([%A-Za-z][\w%]*))?$` shared by the `$$Label` and
`DO Label` patterns of `extractRoutineCall`.  All quantifiers in that tail are
greedy and no backtracking can succeed (a shorter identifier or whitespace run leaves
a character that fails the next regex item), so the match is computed directly with
maximal runs. -/
def matchLabelRoutineTail (l : List Char) (j : Nat) : Option (List Char × Option (List Char)) :=
  match l.get? j with
  | none => none
  | some c =>
    if isIdentStart c then
      let k := runEnd isIdentChar l j
      if k = l.length then some ((l.take k).drop j, none)
      else
        let m := runEnd isWs l k
        if l.get? m = some '^' then
          let m2 := runEnd isWs l (m + 1)
          match l.get? m2 with
          | some c2 =>
            if isIdentStart c2 then
              let n := runEnd isIdentChar l m2
              if n = l.length then some ((l.take k).drop j, some ((l.take n).drop m2))
              else none
            else none
          | none => none
        else none
    else none

/-- Attempt of the regex `\$\$([%A-Za-z][\w%]*)(?:\s*\^\s*([%A-Za-z][\w%]*))?$` at
start position `i`. -/
def extrinsicAt (l : List Char) (i : Nat) : Option RoutineCallContext :=
  if l.get? i = some '$' ∧ l.get? (i + 1) = some '$' then
    match matchLabelRoutineTail l (i + 2) with
    | some (lab, rt) => some ⟨lab, rt.getD []⟩
    | none => none
  else none

/-- Whether positions `i, i+1` of `l` spell `do` case-insensitively with a word
boundary on the left (`\b[Dd][Oo]`). -/
def doWithBoundaryAt (l : List Char) (i : Nat) : Bool :=
  (decide (i = 0) || !wordCharAt l (i - 1)) &&
    (l.get? i = some 'D' || l.get? i = some 'd') &&
    (l.get? (i + 1) = some 'O' || l.get? (i + 1) = some 'o')

/-- Attempt of the regex `\b[Dd][Oo]\b\s+([%A-Za-z][\w%]*)(?:\s*\^\s*([%A-Za-z][\w%]*))?$`
at start position `i`. -/
def doLabelAt (l : List Char) (i : Nat) : Option RoutineCallContext :=
  if doWithBoundaryAt l i ∧ ¬wordCharAt l (i + 2) then
    let w := runEnd isWs l (i + 2) - (i + 2)
    if w ≥ 1 then
      match matchLabelRoutineTail l (i + 2 + w) with
      | some (lab, rt) => some ⟨lab, rt.getD []⟩
      | none => none
    else none
  else none

/-- Attempt of the regex `\b[Dd][Oo]\b\s*\^\s*([%A-Za-z][\w%]*)$` at start position
`i`; on success both the label and the routine are the captured name. -/
def doRoutineAt (l : List Char) (i : Nat) : Option RoutineCallContext :=
  if doWithBoundaryAt l i ∧ ¬wordCharAt l (i + 2) then
    let m := runEnd isWs l (i + 2)
    if l.get? m = some '^' then
      let m2 := runEnd isWs l (m + 1)
      match l.get? m2 with
      | some c2 =>
        if isIdentStart c2 then
          let n := runEnd isIdentChar l m2
          if n = l.length then some ⟨(l.take n).drop m2, (l.take n).drop m2⟩ else none
        else none
      | none => none
    else none
  else none

/-- `extractRoutineCall` (routineSupport.ts lines 767-795): trim the text preceding
the open paren at the right end, then try the three end-anchored patterns in order,
each at its leftmost matching start position. -/
def extractRoutineCall (callText : List Char) : Option RoutineCallContext :=
  let t := trimEnd callText
  match (List.range t.length).findSome? (extrinsicAt t) with
  | some r => some r
  | none =>
    match (List.range t.length).findSome? (doLabelAt t) with
    | some r => some r
    | none => (List.range t.length).findSome? (doRoutineAt t)

/-- The per-parameter accumulation of `routineParameterInfos` (routineSupport.ts lines
804-813): each span starts at the running position and ends after the trimmed
parameter text; between parameters the position advances by 2 for the `", "`. -/
def routineParamInfosGo : List (List Char) → Int → List ParamLabel
  | [], _ => []
  | p :: rest, currentPos =>
    let e := currentPos + ((trim p).length : Int)
    ParamLabel.span currentPos e ::
      routineParamInfosGo rest (e + (if rest.isEmpty then 0 else 2))

/-- `routineParameterInfos` (routineSupport.ts lines 798-815): the
`ParameterInformation` array for a routine signature label, starting just after the
label's `(`. -/
def routineParameterInfos (signatureLabel : List Char) (params : List (List Char)) :
    List ParamLabel :=
  if params.isEmpty then []
  else routineParamInfosGo params (jsIndexOf signatureLabel '(' + 1)

/-- Whether a (comment-stripped) routine line starts with a letter or `%`
(the regex `/^[A-Za-z%]/`), indicating a new label. -/
def isLabelHead (raw : List Char) : Bool :=
  match raw.head? with
  | some c => c.isAlpha || c = '%'
  | none => false

/-- The label-line predicate of `getRoutineSignatureDetails` (routineSupport.ts lines
940-955): the line starts with the label and the label is immediately followed by
end-of-line (ignoring trailing whitespace), whitespace, `(`, or a comment marker. -/
def labelLineMatches (label line : List Char) : Bool :=
  label.isPrefixOf line &&
    (decide ((trimEnd line).length = label.length) ||
      [' '].isPrefixOf (line.drop label.length) ||
      ['\t'].isPrefixOf (line.drop label.length) ||
      ['('].isPrefixOf (line.drop label.length) ||
      [';'].isPrefixOf (line.drop label.length) ||
      "##;".toList.isPrefixOf (line.drop label.length) ||
      "//".toList.isPrefixOf (line.drop label.length) ||
      "/*".toList.isPrefixOf (line.drop label.length))

/-- Index of the first line matching the label (routineSupport.ts lines 938-959). -/
def findLabelLine (routineLines : List (List Char)) (label : List Char) : Option Nat :=
  routineLines.findIdx? (labelLineMatches label)

/-- The continuation-line loop of `getRoutineSignatureDetails` (routineSupport.ts
lines 970-989).  While the remainder holds no `)`, the next line is consumed unless
it is exhausted or its comment-stripped text begins with a letter or `%` (a new
label); a consumed nonempty trimmed line is appended, preceded by a space when the
remainder is nonempty, does not already end in a space, and the line does not start
with a comma.  Returns the final remainder together with the `)` index if found. -/
def continuationLoop : List (List Char) → List Char → List Char × Option Nat
  | [], remainder => (remainder, remainder.findIdx? (fun c => c = ')'))
  | l :: rest, remainder =>
    match remainder.findIdx? (fun c => c = ')') with
    | some i => (remainder, some i)
    | none =>
      let raw := stripRoutineComment l
      if raw ≠ [] ∧ isLabelHead raw then (remainder, none)
      else
        let t := trim raw
        let remainder' :=
          if t = [] then remainder
          else
            (if remainder ≠ [] ∧ remainder.getLast? ≠ some ' ' ∧ t.head? ≠ some ',' then
              remainder ++ [' ']
            else remainder) ++ t
        continuationLoop rest remainder'

/-- The parameter-text assembly of `getRoutineSignatureDetails` (routineSupport.ts
lines 964-995): strip the label line's comment, find its `(`, then extend the
remainder across continuation lines; if the list closes, the text before `)`,
otherwise — the malformed-continuation fallback — all remaining joined text,
trimmed. -/
def assembleParamString (routineLines : List (List Char)) (labelLineIndex : Nat) :
    List Char :=
  let noComment := stripRoutineComment (routineLines.getD labelLineIndex [])
  match noComment.findIdx? (fun c => c = '(') with
  | none => []
  | some openParenIdx =>
    let scan := continuationLoop (routineLines.drop (labelLineIndex + 1))
      (noComment.drop (openParenIdx + 1))
    match scan.2 with
    | some i => scan.1.take i
    | none => trim scan.1

/-- `RoutineSignatureDetails` (routineSupport.ts lines 866-870). -/
structure RoutineSignatureDetails where
  signature : SignatureInformation
  start : Position
  parameters : List (List Char)
deriving DecidableEq

/-- The computational core of `getRoutineSignatureDetails` (routineSupport.ts lines
873-1010).  The I/O of the original — extracting `callText` (the document text from
column 0 to the paren at `(parenLine, parenPos)`), reading the current routine name
from the first line's second token (lines 893-901), and fetching the lines of an
external routine over REST (lines 909-936) — is abstracted: `callText`,
`currentRoutine` and `routineLines` are inputs, and a failed fetch corresponds to the
caller not reaching this core.  Everything from `extractRoutineCall` on is the
source's logic unchanged. -/
def getRoutineSignatureDetailsCore (callText : List Char) (currentRoutine : List Char)
    (routineLines : List (List Char)) (parenLine parenPos : Nat) :
    Option RoutineSignatureDetails :=
  match extractRoutineCall callText with
  | none => none
  | some ctx =>
    let routineName := if ctx.routine = [] then currentRoutine else ctx.routine
    if routineName = [] then none
    else
      match findLabelLine routineLines ctx.label with
      | none => none
      | some labelLineIndex =>
        let params := splitRoutineParams (assembleParamString routineLines labelLineIndex)
        let signatureLabel := ctx.label ++ '(' :: List.intercalate ", ".toList params ++ [')']
        some { signature :=
                 { label := signatureLabel,
                   parameters := routineParameterInfos signatureLabel params,
                   documentation := none },
               start := ⟨parenLine, parenPos + 1⟩,
               parameters := params }

/-- The `context` option of `buildRoutineDocumentation` (`'hover' | 'signature'`). -/
inductive DocContext where
  | hover
  | signature
deriving DecidableEq

/-- The options record of `buildRoutineDocumentation` (routineSupport.ts lines
1024-1029); every field is optional. -/
structure BuildDocOptions where
  context : Option DocContext := none
  boldParameter : Option Bool := none
  showHeaderInHover : Option Bool := none
deriving DecidableEq

/-- The local `esc` of `buildRoutineDocumentation` (routineSupport.ts lines
1050-1051): replace `<`, `>` and `&` by their HTML entities. -/
def escMd (s : List Char) : List Char :=
  s.flatMap (fun c =>
    if c = '<' then "&lt;".toList
    else if c = '>' then "&gt;".toList
    else if c = '&' then "&amp;".toList
    else [c])

/-- The local `getParamText` of `buildRoutineDocumentation` (routineSupport.ts lines
1040-1048): the active parameter's text, from its span when the label is an offset
pair (empty unless the span is increasing), or the string itself for a string label.
An index outside the array yields the empty string. -/
def getParamText (signature : SignatureInformation) (i : Int) : List Char :=
  match (if i < 0 then none else signature.parameters.get? i.toNat) with
  | none => []
  | some (ParamLabel.span s e) => if s < e then jsSlice signature.label s e else []
  | some (ParamLabel.text t) => t

/-- The local `renderSignatureWithInlineParam` of `buildRoutineDocumentation`
(routineSupport.ts lines 1054-1082): the label with the active parameter's substring
wrapped in inline code (optionally bold), located by its span, or by substring search
within the escaped label when the parameter label is a string. -/
def renderSignatureWithInlineParam (sigParams : List ParamLabel) (boldParam : Bool)
    (label : List Char) (i : Int) : List Char :=
  match (if i < 0 then none else sigParams.get? i.toNat) with
  | none => escMd label
  | some (ParamLabel.span s e) =>
    if s < e then
      escMd (jsSlice label 0 s) ++
        (if boldParam then "**`".toList else "`".toList) ++ escMd (jsSlice label s e) ++
        (if boldParam then "`**".toList else "`".toList) ++ escMd (jsSliceFrom label e)
    else escMd label
  | some (ParamLabel.text t) =>
    if t ≠ [] then
      match (List.range ((escMd label).length + 1)).findSome?
          (fun k => if (escMd t).isPrefixOf ((escMd label).drop k) then some k else none) with
      | some k =>
        (escMd label).take k ++
          (if boldParam then "**`".toList else "`".toList) ++ escMd t ++
          (if boldParam then "`**".toList else "`".toList) ++
          (escMd label).drop (k + (escMd t).length)
      | none => escMd label
    else escMd label

/-- `buildRoutineDocumentation` (routineSupport.ts lines 1021-1110): Markdown
documentation for a signature's active parameter.  In hover context with the header
enabled it opens with a fenced code block holding the raw label; outside signature
context it renders the label with the parameter in inline code; it always ends with
the localized "parameter at source" line.  The source's return type admits
`undefined` but every path returns content, so the result is total. -/
def buildRoutineDocumentation (signature : SignatureInformation) (activeIndex : Option Int)
    (options : Option BuildDocOptions) : MarkupContent :=
  let paramInfos := signature.parameters
  let isHover := options.bind (fun o => o.context) = some DocContext.hover
  let isSignature := options.bind (fun o => o.context) = some DocContext.signature
  let boldParam := options.bind (fun o => o.boldParameter) = some true
  let showHeaderInHover := (options.bind (fun o => o.showHeaderInHover)).getD true
  let idx : Int :=
    if paramInfos.length ≠ 0 then
      min (max (activeIndex.getD 0) 0) ((paramInfos.length : Int) - 1)
    else 0
  let pText := getParamText signature idx
  let pInline :=
    if boldParam then "**`".toList ++ escMd pText ++ "`**".toList
    else "`".toList ++ escMd pText ++ "`".toList
  let headerLines : List (List Char) :=
    if isHover ∧ showHeaderInHover then ["```".toList, signature.label, "```".toList, []]
    else []
  let midLines : List (List Char) :=
    if ¬isSignature then
      [renderSignatureWithInlineParam paramInfos boldParam signature.label idx, []]
    else []
  let lastLine :=
    if pText ≠ [] then "Parâmetro na origem: ".toList ++ pInline
    else "Parâmetro na origem:".toList
  ⟨List.intercalate ['\n'] (headerLines ++ midLines ++ [lastLine])⟩

/-- The macro signature text of the macro resolver (signatureHelp.ts lines 224 and
472): the remote signature string with all whitespace removed, then `", "`
substituted for each comma. -/
def macroSigText (signature : List Char) : List Char :=
  (removeWs signature).flatMap (fun c => if c = ',' then [',', ' '] else [c])

/-- The `SignatureInformation` the macro resolver builds from a nonempty remote
signature response (signatureHelp.ts lines 224-228): label `macroSigText` and
parameters split by `formalSpecToParamsArr`; the expansion request that follows
immediately (lines 241-243) carries `emphasizeArgument` of this label with argument
1 emphasized. -/
def macroSignatureFromResponse (signature : List Char) : SignatureInformation :=
  { label := macroSigText signature,
    parameters := formalSpecToParamsArr (macroSigText signature),
    documentation := none }

/-- Modelled from the spec: `determineActiveParam` is imported from
`../utils/functions`, which is not among the given sources.  Spec section 4.6
describes it as a pure function of the text typed between the signature's start
position and the cursor that counts unescaped top-level commas — outside quoted
regions and outside nested parens, with the same discipline as the parameter
splitters of sections 4.3/4.4 — producing the raw zero-based index; the clamping into
`[0, parameterCount-1]` is performed by the call sites, which receive only this text.
The TypeScript type admits `null`, hence the `Option`. -/
def determineActiveParamLoop : List Char → Option Char → Bool → Nat → Nat → Nat
  | [], _, _, _, count => count
  | c :: rest, prev, inQuote, depth, count =>
    if c = '"' ∧ prev ≠ some '\\' then
      determineActiveParamLoop rest (some c) (!inQuote) depth count
    else if ¬inQuote ∧ c = '(' then
      determineActiveParamLoop rest (some c) inQuote (depth + 1) count
    else if ¬inQuote ∧ c = ')' ∧ depth > 0 then
      determineActiveParamLoop rest (some c) inQuote (depth - 1) count
    else if ¬inQuote ∧ c = ',' ∧ depth = 0 then
      determineActiveParamLoop rest (some c) inQuote depth (count + 1)
    else
      determineActiveParamLoop rest (some c) inQuote depth count

/-- Modelled from the spec: see `determineActiveParamLoop`. -/
def determineActiveParam (text : List Char) : Option Nat :=
  some (determineActiveParamLoop text none false 0 0)

/-- Modelled from the spec: `beautifyFormalSpec` is imported from
`../utils/functions`, which is not among the given sources.  Per the spec's
constructor scenario (section 8: formal spec `"x As %Integer"` yields the label
`"(x As %Integer) As MyClass"`), it renders the formal spec wrapped in
parentheses. -/
def beautifyFormalSpec (s : List Char) : List Char := '(' :: (s ++ [')'])

/-- A row of the `%Dictionary.CompiledMethod` query issued by the class-member
resolver (classSupport.ts lines 57-65). -/
structure CompiledMethodRow where
  FormalSpec : List Char
  ReturnType : List Char
  Description : List Char
  Stub : List Char
  Origin : List Char
deriving DecidableEq

/-- `MethodSignatureDetails` (classSupport.ts lines 16-19). -/
structure MethodSignatureDetails where
  signature : SignatureInformation
  start : Position
deriving DecidableEq

/-- The `%New` branch of `getMethodSignatureDetails` (classSupport.ts lines 74-89),
reached when the member under the paren is the constructor `%New`: the query returned
`rows` for names `%New` and `%OnNew`; only when exactly two rows came back and the
second's `Origin` differs from `%Library.RegisteredObject` (the hook overridden
beyond the library default) is a signature built from the hook's formal spec, with
` As <baseclass>` appended to the label; in every other case the resolver returns
`null`. -/
def methodSignatureDetailsForNew (rows : List CompiledMethodRow) (baseclass : List Char)
    (start : Position) : Option MethodSignatureDetails :=
  match rows with
  | [_r0, r1] =>
    if r1.Origin ≠ "%Library.RegisteredObject".toList then
      if r1.FormalSpec = [] then none
      else
        let raw := beautifyFormalSpec r1.FormalSpec
        some { signature :=
                 { label := raw ++ " As ".toList ++ baseclass,
                   parameters := formalSpecToParamsArr raw,
                   documentation := none },
               start := start }
    else none
  | _ => none

/-- The retrigger branch of `onSignatureHelp` (signatureHelp.ts lines 133-191),
entered when `params.context.isRetrigger` holds and the trigger character is not
`"("`.  Inputs: the module state, `params.context.activeSignatureHelp`, the
one-character document text immediately before the cursor (`prevchar`), the document
text from `signatureHelpStartPosition` to the cursor (`typedText`), and the
`getmacroexpansion` REST response (`none` models an `undefined` response).  The
result is the updated state paired with the returned `SignatureHelp`; the outer
`none` models runs with no defined result — a non-terminating `emphasizeArgument`
call, an unset `signatureHelpMacroCache` being spread, or an empty `signatures`
array being indexed. -/
def retriggerStep (st : SignatureHelpState) (activeSigHelp : Option SignatureHelpResult)
    (prevchar typedText : List Char) (expansionResp : Option (List (List Char))) :
    Option (SignatureHelpState × Option SignatureHelpResult) :=
  match activeSigHelp, st.startPosition with
  | some ash, some _ =>
    if prevchar = [')'] then
      some ({ st with docCache := none, startPosition := none }, none)
    else
      let active := determineActiveParam typedText
      let ash1 := { ash with activeParameter := active }
      match st.docCache with
      | none => some (st, some ash1)
      | some dc =>
        match ash1.signatures with
        | [] => none
        | sigInfo :: restSigs =>
          if dc.type = DocCacheType.macroDoc ∧ active ≠ none then
            match st.macroCache with
            | none => none
            | some mc =>
              match emphasizeArgument mc.arguments (active.getD 0 + 1) with
              | none => none
              | some _emphasized =>
                match expansionResp with
                | some exp =>
                  if exp.length > 0 then
                    let newDoc : MarkupContent := ⟨markdownifyExpansion exp⟩
                    some ({ st with docCache := some { dc with doc := newDoc } },
                      some { ash1 with
                        signatures := { sigInfo with documentation := some newDoc } :: restSigs })
                  else some (st, some ash1)
                | none => some (st, some ash1)
          else if dc.type = DocCacheType.routineDoc then
            let paramInfos := sigInfo.parameters
            let bounded : Option Nat :=
              if paramInfos.length ≠ 0 then
                some (min (max (active.getD 0) 0) (paramInfos.length - 1))
              else none
            let docContent := buildRoutineDocumentation sigInfo
              (bounded.map (fun n => (n : Int)))
              (some { context := some DocContext.signature })
            some ({ st with docCache := some { dc with doc := docContent } },
              some { ash1 with
                activeParameter := bounded,
                signatures := { sigInfo with documentation := some docContent } :: restSigs })
          else
            some (st,
              some { ash1 with
                signatures := { sigInfo with documentation := some dc.doc } :: restSigs })
  | _, _ => some (st, none)

theorem removeWs_all (l : List Char) : (removeWs l).all (fun c => !isWs c) = true := by
  rw [List.all_eq_true]
  intro c hc
  exact (List.mem_filter.mp hc).2

theorem dropWhile_head?_not (p : Char → Bool) :
    ∀ (l : List Char) (a : Char), (l.dropWhile p).head? = some a → p a = false := by
  intro l
  induction l with
  | nil => intro a h; simp at h
  | cons c t ih =>
    intro a h
    rw [List.dropWhile_cons] at h
    by_cases hc : p c = true
    · rw [if_pos hc] at h
      exact ih a h
    · rw [if_neg hc] at h
      simp only [List.head?_cons, Option.some.injEq] at h
      subst h
      simpa using hc

theorem getLast?_dropWhile (p : Char → Bool) :
    ∀ l : List Char, l.dropWhile p ≠ [] → (l.dropWhile p).getLast? = l.getLast? := by
  intro l
  induction l with
  | nil => intro h; simp at h
  | cons c t ih =>
    intro h
    rw [List.dropWhile_cons] at h ⊢
    by_cases hc : p c = true
    · rw [if_pos hc] at h ⊢
      have ht : t ≠ [] := by
        intro he
        rw [he] at h
        simp at h
      obtain ⟨x, t', rfl⟩ := List.exists_cons_of_ne_nil ht
      rw [ih h, List.getLast?_cons_cons]
    · rw [if_neg hc]

theorem head?_trim_not_ws (x : List Char) (a : Char) (h : (trim x).head? = some a) :
    isWs a = false := by
  unfold trim trimEnd trimStart at h
  rw [List.head?_reverse] at h
  have hz : ((x.dropWhile isWs).reverse.dropWhile isWs) ≠ [] := by
    intro he
    rw [he] at h
    simp at h
  rw [getLast?_dropWhile isWs _ hz, List.getLast?_reverse] at h
  exact dropWhile_head?_not isWs _ a h

theorem getLast?_trim_not_ws (x : List Char) (a : Char) (h : (trim x).getLast? = some a) :
    isWs a = false := by
  unfold trim trimEnd trimStart at h
  rw [List.getLast?_reverse] at h
  exact dropWhile_head?_not isWs _ a h

theorem trim_eq_self (l : List Char)
    (h1 : ∀ a, l.head? = some a → isWs a = false)
    (h2 : ∀ a, l.getLast? = some a → isWs a = false) :
    trim l = l := by
  unfold trim trimEnd trimStart
  have hstart : l.dropWhile isWs = l := by
    cases l with
    | nil => rfl
    | cons c t =>
      rw [List.dropWhile_cons, if_neg]
      simp [h1 c rfl]
  rw [hstart]
  have hrev : l.reverse.dropWhile isWs = l.reverse := by
    cases hr : l.reverse with
    | nil => rfl
    | cons c t =>
      rw [List.dropWhile_cons, if_neg]
      have : l.getLast? = some c := by
        rw [← List.head?_reverse, hr]
        rfl
      simp [h2 c this]
  rw [hrev, List.reverse_reverse]

theorem trim_trim (x : List Char) : trim (trim x) = trim x := by
  cases ht : trim x with
  | nil => simp [ht, trim, trimEnd, trimStart]
  | cons c t =>
    rw [← ht]
    exact trim_eq_self (trim x)
      (fun a h => head?_trim_not_ws x a h)
      (fun a h => getLast?_trim_not_ws x a h)

theorem mem_splitLoop_trim :
    ∀ (chars : List Char) (prev : Option Char) (inQuote : Bool) (depth : Nat)
      (current : List Char) (acc : List (List Char)),
      (∀ p ∈ acc, ∃ x, p = trim x) →
      ∀ p ∈ splitLoop chars prev inQuote depth current acc, ∃ x, p = trim x := by
  intro chars
  induction chars with
  | nil =>
    intro prev inQuote depth current acc hacc p hp
    unfold splitLoop at hp
    rcases List.mem_append.mp hp with hl | hr
    · exact hacc p hl
    · by_cases hc : trim current ≠ []
      · rw [if_pos hc] at hr
        simp only [List.mem_singleton] at hr
        exact ⟨current, hr⟩
      · rw [if_neg hc] at hr
        simp at hr
  | cons c rest ih =>
    intro prev inQuote depth current acc hacc p hp
    unfold splitLoop at hp
    split at hp
    · exact ih _ _ _ _ _ hacc p hp
    · split at hp
      · exact ih _ _ _ _ _ hacc p hp
      · split at hp
        · exact ih _ _ _ _ _ hacc p hp
        · split at hp
          · refine ih _ _ _ _ _ ?_ p hp
            intro q hq
            rcases List.mem_append.mp hq with hl | hr
            · exact hacc q hl
            · simp only [List.mem_singleton] at hr
              exact ⟨current, hr⟩
          · exact ih _ _ _ _ _ hacc p hp

theorem emphasizeArgument_single (l : List Char)
    (hc : (l.map normNbsp).count ' ' = 0) (hne : l ≠ []) :
    emphasizeArgument l 1 =
      some (removeWs (jsSlice l 0 1 ++ emphasizeStart ++
        jsSlice l 1 ((l.length : Int) - 1) ++ emphasizeEnd ++
        jsSliceFrom l ((l.length : Int) - 1))) := by
  have hlen : 1 ≤ l.length := List.length_pos.mpr hne
  have hne1 : ((l.length : Int) - 1) ≠ -1 := by omega
  simp [emphasizeArgument, List.length_map, hc, hne1]

/-- C3.  The formal-spec parameter splitter ends a parameter at a comma exactly when
the scan is outside quotes, at brace depth zero and at paren depth exactly one
(`formalSpecLoop`); consequently `(a, b(x,y), "c,d")` splits into exactly the three
spans covering `a`, `b(x,y)` and `"c,d"`, and `()` splits into zero spans. -/
theorem c3_formal_spec_splitter :
    formalSpecToParamsArr "(a, b(x,y), \"c,d\")".toList =
      [ParamLabel.span 1 2, ParamLabel.span 3 10, ParamLabel.span 11 17] ∧
    trim (jsSlice "(a, b(x,y), \"c,d\")".toList 1 2) = "a".toList ∧
    trim (jsSlice "(a, b(x,y), \"c,d\")".toList 3 10) = "b(x,y)".toList ∧
    trim (jsSlice "(a, b(x,y), \"c,d\")".toList 11 17) = "\"c,d\"".toList ∧
    formalSpecToParamsArr "()".toList = [] := by
  decide

/-- C9.  Whenever the argument-emphasis function returns (each return path applies
`replace(/\s+/g, "")`), the returned string contains no whitespace characters, for
every input string and every argument index. -/
theorem c9_emphasize_no_whitespace (s : List Char) (arg : Nat) (r : List Char)
    (h : emphasizeArgument s arg = some r) : r.all (fun c => !isWs c) = true := by
  simp only [emphasizeArgument] at h
  repeat' split at h
  all_goals
    first
      | exact (Option.some.inj h) ▸ removeWs_all _
      | (obtain ⟨t, ht, hr⟩ := Option.map_eq_some'.mp h
         exact hr ▸ removeWs_all _)

/-- Witness for C9 at the concrete input `"A B C"` with argument 4. -/
theorem c9_emphasize_no_whitespace_witness :
    emphasizeArgument "A B C".toList 4 = some "ABC".toList ∧
    ("ABC".toList).all (fun c => !isWs c) = true :=
  ⟨by decide, c9_emphasize_no_whitespace "A B C".toList 4 "ABC".toList (by decide)⟩

/-- C10.  Every string produced by the routine parameter splitter is nonempty and is
its own whitespace-trim: empty parameters are dropped wherever they occur and each
survivor carries no surrounding whitespace. -/
theorem c10_split_routine_params_trimmed (s : List Char) :
    ∀ p ∈ splitRoutineParams s, p ≠ [] ∧ trim p = p := by
  intro p hp
  simp only [splitRoutineParams] at hp
  split at hp
  · simp at hp
  · obtain ⟨hmem, hne'⟩ := List.mem_filter.mp hp
    have hne : p ≠ [] := by simpa using hne'
    obtain ⟨x, rfl⟩ := mem_splitLoop_trim _ _ _ _ _ _ (by intro q hq; simp at hq) p hmem
    exact ⟨hne, trim_trim x⟩

/-- Witness for C10 at the concrete input `" a , , b "` and its first parameter. -/
theorem c10_split_routine_params_trimmed_witness :
    "a".toList ≠ [] ∧ trim "a".toList = "a".toList :=
  c10_split_routine_params_trimmed " a , , b ".toList "a".toList (by decide)

/-- C1.  On a retrigger of an active method (or macro) signature, the engine assigns
`determineActiveParam` to `activeParameter` without clamping (signatureHelp.ts line
144; only the routine cache type clamps, lines 163-171): with a 2-parameter method
signature active and five top-level commas typed since the start position, the
returned active parameter index is 5, which is not below the parameter count 2 —
against the claimed invariant. -/
theorem c1_retrigger_unclamped_active_param :
    (retriggerStep
        { macroCache := none,
          docCache := some { type := DocCacheType.methodDoc, doc := ⟨"docs".toList⟩ },
          startPosition := some ⟨0, 10⟩ }
        (some { signatures := [{ label := "(a, b)".toList,
                                 parameters := [ParamLabel.span 1 2, ParamLabel.span 3 5],
                                 documentation := none }],
                activeSignature := 0, activeParameter := some 0 })
        ",".toList ",,,,,".toList none).map
      (fun r => r.2.map (fun a => (a.activeParameter, a.signatures.map (fun s => s.parameters.length)))) =
      some (some (some 5, [2])) ∧
    ¬ (5 < 2) := by
  constructor
  · rfl
  · decide

/-- C2 counterexample.  For a class whose `%OnNew` row has origin
`%Library.RegisteredObject` (the hook not overridden beyond the library default), the
class-member resolver's `%New` branch returns `none` — not a zero-parameter
signature as claimed. -/
theorem c2_new_counterexample :
    methodSignatureDetailsForNew
      [⟨[], "%Status".toList, [], [], "MyApp.MyClass".toList⟩,
       ⟨"x As %Integer".toList, "%Status".toList, [], [],
        "%Library.RegisteredObject".toList⟩]
      "MyApp.MyClass".toList ⟨0, 12⟩ = none := by
  rfl

/-- C2 amended.  Whenever the `%New`/`%OnNew` query returns two rows whose second row
has origin `%Library.RegisteredObject`, the class-member resolver produces no
signature at all (it returns `null`), for any base class and start position. -/
theorem c2_new_without_override_yields_none (r0 r1 : CompiledMethodRow)
    (baseclass : List Char) (start : Position)
    (h : r1.Origin = "%Library.RegisteredObject".toList) :
    methodSignatureDetailsForNew [r0, r1] baseclass start = none := by
  simp [methodSignatureDetailsForNew, h]

/-- Witness for the amended C2 at concrete rows. -/
theorem c2_new_without_override_yields_none_witness :
    methodSignatureDetailsForNew
      [⟨"a As %String".toList, "%Status".toList, [], [], "MyApp.Base".toList⟩,
       ⟨[], [], [], [], "%Library.RegisteredObject".toList⟩]
      "MyApp.Base".toList ⟨2, 7⟩ = none :=
  c2_new_without_override_yields_none
    ⟨"a As %String".toList, "%Status".toList, [], [], "MyApp.Base".toList⟩
    ⟨[], [], [], [], "%Library.RegisteredObject".toList⟩
    "MyApp.Base".toList ⟨2, 7⟩ (by decide)

/-- C4 counterexample.  Emphasizing argument 1 of `"A B C"` does not wrap the token
`A` in the emphasis markers: the result is `"A%%%%%@@@@@ABC"`, in which the markers
wrap an empty span (the function assumes a parenthesized list and starts the first
argument at offset 1). -/
theorem c4_emphasize_counterexample :
    emphasizeArgument "A B C".toList 1 = some "A%%%%%@@@@@ABC".toList ∧
    containsSeq (emphasizeStart ++ "A".toList ++ emphasizeEnd)
      "A%%%%%@@@@@ABC".toList = false := by
  decide

/-- C4 amended.  Emphasizing argument 1 of `"A B C"` yields `"A%%%%%@@@@@ABC"` and
argument 3 yields `"AB%%%%%@@@@@C"` (the markers are placed at offsets computed for a
parenthesized list and wrap an empty span, not the token); argument 4, beyond the
argument count, returns the whitespace-collapsed `"ABC"` with no markers; and for
every nonempty single-argument list the emphasized span is the whole text between the
first and the second-to-last character. -/
theorem c4_emphasize_behaviour :
    emphasizeArgument "A B C".toList 1 = some "A%%%%%@@@@@ABC".toList ∧
    emphasizeArgument "A B C".toList 3 = some "AB%%%%%@@@@@C".toList ∧
    emphasizeArgument "A B C".toList 4 = some "ABC".toList ∧
    ∀ arglist : List Char, (arglist.map normNbsp).count ' ' = 0 → arglist ≠ [] →
      emphasizeArgument arglist 1 =
        some (removeWs (jsSlice arglist 0 1 ++ emphasizeStart ++
          jsSlice arglist 1 ((arglist.length : Int) - 1) ++ emphasizeEnd ++
          jsSliceFrom arglist ((arglist.length : Int) - 1))) := by
  refine ⟨by decide, by decide, by decide, ?_⟩
  intro arglist hc hne
  exact emphasizeArgument_single arglist hc hne

/-- Witness for the amended C4 at the single-argument list `"(x)"`. -/
theorem c4_emphasize_behaviour_witness :
    emphasizeArgument "(x)".toList 1 = some "(%%%%%x@@@@@)".toList :=
  (c4_emphasize_behaviour.2.2.2 "(x)".toList (by decide) (by decide)).trans (by decide)

/-- C5 counterexample.  For the remote signature response `"arg1,arg2"` the macro
resolver's signature has exactly one parameter span, not two (the splitter requires
paren depth one, and the response is not parenthesized), and the expansion request it
issues does not carry `arg1` wrapped in the emphasis markers. -/
theorem c5_macro_response_counterexample :
    (macroSignatureFromResponse "arg1,arg2".toList).parameters.length = 1 ∧
    (1 : Nat) ≠ 2 ∧
    containsSeq (emphasizeStart ++ "arg1".toList ++ emphasizeEnd)
      ((emphasizeArgument (macroSignatureFromResponse "arg1,arg2".toList).label 1).getD [])
      = false := by
  decide

/-- C5 amended.  For the remote signature response `"arg1,arg2"` the macro resolver
produces the label `"arg1, arg2"` (whitespace removed, a space re-inserted after each
comma) with exactly one parameter span `[1, 9]`, and the immediately issued expansion
request emphasizes the characters between offset 1 and the first space — the markers
wrap `"rg1"`, all but the first character of `arg1`. -/
theorem c5_macro_response_signature :
    (macroSignatureFromResponse "arg1,arg2".toList).label = "arg1, arg2".toList ∧
    (macroSignatureFromResponse "arg1,arg2".toList).parameters = [ParamLabel.span 1 9] ∧
    emphasizeArgument (macroSignatureFromResponse "arg1,arg2".toList).label 1 =
      some "a%%%%%rg1@@@@@,arg2".toList := by
  decide

/-- C6.  For the routine source `"Label(p1,p2)\n"` called via `DO Label^Routine(`
(the paren at line 3, column 16), the routine resolver recognizes the call pattern
(label `Label`, routine `Routine`), locates the label line, and returns the signature
label `"Label(p1, p2)"` with exactly the two parameters `p1` and `p2` (spans
`[6,8]` and `[10,12]`) and start position immediately after the open paren. -/
theorem c6_routine_scenario :
    extractRoutineCall "DO Label^Routine".toList =
      some ⟨"Label".toList, "Routine".toList⟩ ∧
    getRoutineSignatureDetailsCore "DO Label^Routine".toList []
        ["Label(p1,p2)".toList, []] 3 16 =
      some { signature := { label := "Label(p1, p2)".toList,
                            parameters := [ParamLabel.span 6 8, ParamLabel.span 10 12],
                            documentation := none },
             start := ⟨3, 17⟩,
             parameters := ["p1".toList, "p2".toList] } := by
  constructor
  · decide
  · rfl

/-- C7 counterexample.  On a close-paren retrigger the engine clears only the
documentation cache and the start position; the macro expansion context
(`signatureHelpMacroCache`) is left set, so not all session fields are cleared. -/
theorem c7_close_paren_counterexample :
    (retriggerStep
        { macroCache := some { docname := "A.cls".toList, macroname := "M".toList,
                               superclasses := [], includes := [], includegenerators := [],
                               imports := [], mode := [], arguments := "(x)".toList },
          docCache := some { type := DocCacheType.macroDoc, doc := ⟨"d".toList⟩ },
          startPosition := some ⟨1, 5⟩ }
        (some { signatures := [{ label := "(x)".toList,
                                 parameters := [ParamLabel.span 1 2],
                                 documentation := none }],
                activeSignature := 0, activeParameter := some 0 })
        ")".toList "x)".toList none).map
      (fun r => (r.1.macroCache.isSome, r.1.docCache, r.1.startPosition, r.2)) =
      some (true, none, none, none) := by
  rfl

/-- C7 amended.  On a retrigger with an active signature and a recorded start
position, when the character immediately before the cursor is `)`, the engine clears
the documentation cache and the start position and returns no result; the macro
expansion context field is left unchanged. -/
theorem c7_close_paren_clears_session (st : SignatureHelpState)
    (ash : SignatureHelpResult) (typedText : List Char)
    (expansionResp : Option (List (List Char))) (p : Position)
    (hstart : st.startPosition = some p) :
    retriggerStep st (some ash) [')'] typedText expansionResp =
      some ({ st with docCache := none, startPosition := none }, none) := by
  simp [retriggerStep, hstart]

/-- Witness for the amended C7 at a concrete state. -/
theorem c7_close_paren_clears_session_witness :
    retriggerStep
        { macroCache := none,
          docCache := some { type := DocCacheType.routineDoc, doc := ⟨"r".toList⟩ },
          startPosition := some ⟨0, 3⟩ }
        (some { signatures := [], activeSignature := 0, activeParameter := none })
        [')'] "a)".toList none =
      some ({ macroCache := none, docCache := none, startPosition := none }, none) :=
  c7_close_paren_clears_session
    { macroCache := none,
      docCache := some { type := DocCacheType.routineDoc, doc := ⟨"r".toList⟩ },
      startPosition := some ⟨0, 3⟩ }
    { signatures := [], activeSignature := 0, activeParameter := none }
    "a)".toList none ⟨0, 3⟩ rfl

/-- C8.  When a routine label line opens a parameter list that never closes, the
resolver does not fail.  First, a continuation line whose comment-stripped text is
nonempty and begins with a letter or `%` is never consumed: the loop stops with the
remainder unchanged and no close index.  Second, on the concrete never-closing input
`["Stuff(p1,", " p2,", " p3"]` the resolver still returns a signature, with all
remaining joined text treated as the parameter list. -/
theorem c8_never_closing_param_list (l : List Char) (rest : List (List Char))
    (remainder : List Char)
    (hclose : remainder.findIdx? (fun c => c = ')') = none)
    (hne : stripRoutineComment l ≠ [])
    (hhead : isLabelHead (stripRoutineComment l) = true) :
    continuationLoop (l :: rest) remainder = (remainder, none) ∧
    getRoutineSignatureDetailsCore "DO Stuff^MyRt".toList []
        ["Stuff(p1,".toList, " p2,".toList, " p3".toList] 0 13 =
      some { signature := { label := "Stuff(p1, p2, p3)".toList,
                            parameters := [ParamLabel.span 6 8, ParamLabel.span 10 12,
                                           ParamLabel.span 14 16],
                            documentation := none },
             start := ⟨0, 14⟩,
             parameters := ["p1".toList, "p2".toList, "p3".toList] } := by
  constructor
  · unfold continuationLoop
    rw [hclose]
    simp [hne, hhead]
  · rfl

/-- Witness for C8: the continuation loop refuses the label-like line `"NextLabel"`. -/
theorem c8_never_closing_param_list_witness :
    continuationLoop ["NextLabel".toList] "p1,".toList = ("p1,".toList, none) :=
  (c8_never_closing_param_list "NextLabel".toList [] "p1,".toList
    (by decide) (by decide) (by decide)).1

end SigEngine
